import Mathlib

/-!
Shallow embedding of `useAvoidIntersections.ts` (datahub-web-react,
`src/app/lineageV3/LineageEntityNode/useAvoidIntersections.ts`): the
collision-avoidance / cascade-repositioning algorithm over a node
collection.  JavaScript numbers are modelled as integers (the
algorithm uses only +, -, max and comparisons), node collections as
lists, and the `Map` of moves as an association list built in
processing order.  The React effect plumbing is modelled by an explicit
result record that records whether `setNodes` was invoked, the
collection after the forward application, and the cleanup closure as a
pure function on collections.
-/

/-- Modelled from the spec: the node's classification payload is opaque to
this core and is consumed only by the externally supplied
`isTransformational` predicate; we represent it as an uninterpreted string. -/
abbrev NodeData := String

/-- Modelled from the spec: `EntityType` is an enumeration passed through to
the transformational predicate and never interpreted by this core; we
represent it as an uninterpreted string. -/
abbrev EntityType := String

/-- Modelled from the spec: `LINEAGE_NODE_HEIGHT` lives in
`@app/lineageV3/common`, outside the provided source; the spec's scenario
uses a default height of 80 units. -/
def LINEAGE_NODE_HEIGHT : ℤ := 80

/-- Modelled from the spec: `LINEAGE_NODE_WIDTH` lives in
`@app/lineageV3/common`, outside the provided source; the spec only requires
a fixed positive default width, and no claim depends on its exact value. -/
def LINEAGE_NODE_WIDTH : ℤ := 320

/-- `const MIN_SEPARATION = 10` (line 89 of the source). -/
def MIN_SEPARATION : ℤ := 10

/-- A ReactFlow node as used by the algorithm: identifier, position
(`position.x`, `position.y`), optional measured width/height, and the
opaque data consumed by the transformational predicate. -/
structure LNode where
  id : String
  x : ℤ
  y : ℤ
  width : Option ℤ
  height : Option ℤ
  data : NodeData
deriving DecidableEq

/-- JavaScript `a.width || LINEAGE_NODE_WIDTH`: the default replaces an
absent width and, because `0` is falsy, also a zero width. -/
def widthOr : Option ℤ → ℤ
  | none => LINEAGE_NODE_WIDTH
  | some w => if w = 0 then LINEAGE_NODE_WIDTH else w

/-- JavaScript `node.height || LINEAGE_NODE_HEIGHT`: the default replaces an
absent height and, because `0` is falsy, also a zero height. -/
def heightOr : Option ℤ → ℤ
  | none => LINEAGE_NODE_HEIGHT
  | some h => if h = 0 then LINEAGE_NODE_HEIGHT else h

/-- `overlapsX` (lines 82-87): the horizontal spans intersect, i.e.
`min(a.x + a.width, b.x + b.width) > max(a.x, b.x)` with default widths
substituted for falsy ones. -/
def overlapsX (a b : LNode) : Bool :=
  decide (max a.x b.x < min (a.x + widthOr a.width) (b.x + widthOr b.width))

/-- `pushDownDistance` (lines 91-93): `Math.max(0, newY + MIN_SEPARATION - nodeY)`. -/
def pushDownDistance (newY nodeY : ℤ) : ℤ :=
  max 0 (newY + MIN_SEPARATION - nodeY)

/-- The candidate filter of `avoidIntersections` (lines 57-59): drop
transformational nodes, then keep nodes other than `self` that lie at or
below `self` and overlap it horizontally.  `tf` is the externally supplied
`isTransformational` predicate. -/
def candidateNodes (tf : NodeData → EntityType → Bool) (rootType : EntityType)
    (self : LNode) (nodes : List LNode) : List LNode :=
  (nodes.filter (fun node => ! tf node.data rootType)).filter
    (fun node => node.id != self.id && decide (self.y ≤ node.y) && overlapsX self node)

/-- The comparison relation of `nodes.sort((a, b) => a.position.y - b.position.y)`
(line 60): ascending `y`. -/
def byY (a b : LNode) : Prop := a.y ≤ b.y

instance : DecidableRel byY := fun a b => inferInstanceAs (Decidable (a.y ≤ b.y))

instance : IsTotal LNode byY := ⟨fun a b => le_total a.y b.y⟩

instance : IsTrans LNode byY := ⟨fun _ _ _ => le_trans⟩

/-- Stable sort by ascending `y` (line 60); JavaScript's `Array.sort` is a
stable sort, modelled by insertion sort. -/
def sortByY (l : List LNode) : List LNode := l.insertionSort byY

/-- The cascade loop of `avoidIntersections` (lines 62-72): walk the sorted
candidates keeping a frontier `newY`; while the push distance is truthy
(nonzero), record the node with its distance and advance the frontier to the
node's new bottom edge; at the first falsy distance, `break`. -/
def cascade (newY : ℤ) : List LNode → List (LNode × ℤ)
  | [] => []
  | node :: rest =>
    let distance := pushDownDistance newY node.y
    if distance ≠ 0 then
      (node, distance) :: cascade (node.y + distance + heightOr node.height) rest
    else
      []

/-- The frontier value after the cascade has pushed every node of the list:
the fold of `newY = node.y + distance + height` over the list. -/
def frontierAfter (newY : ℤ) : List LNode → ℤ
  | [] => newY
  | node :: rest =>
    frontierAfter (node.y + pushDownDistance newY node.y + heightOr node.height) rest

/-- `getNode(id)` of ReactFlow: look the node up by identifier. -/
def findNode (id : String) (nodes : List LNode) : Option LNode :=
  nodes.find? (fun n => n.id == id)

/-- The per-node update performed inside `moveNodes` (lines 97-110):
`nodesToMove.get(node.id)` followed by the truthy test `if (moveAmount)`,
shifting `y` by `+amount` when moving down and `-amount` when moving back. -/
def moveNode (moves : List (String × ℤ)) (down : Bool) (n : LNode) : LNode :=
  match moves.lookup n.id with
  | some a => if a ≠ 0 then { n with y := n.y + (if down then a else -a) } else n
  | none => n

/-- The pure transform `moveNodes` hands to `setNodes` (lines 95-112):
map the per-node update over the collection. -/
def moveNodes (moves : List (String × ℤ)) (down : Bool) (nodes : List LNode) : List LNode :=
  nodes.map (moveNode moves down)

/-- Observable outcome of one `avoidIntersections` call: the computed
MoveSet (node id to distance, in processing order), the node collection
after the forward application, whether `setNodes` was invoked, and the
returned cleanup closure as a pure transform on collections. -/
structure AvoidResult where
  moves : List (String × ℤ)
  nodes : List LNode
  setNodesCalled : Bool
  cleanup : List LNode → List LNode

/-- `avoidIntersections` (lines 49-80): look up `self`; on absence return an
inert cleanup.  Otherwise filter and sort the candidates, run the cascade
from `self.y + expandHeight`, and if the MoveSet is non-empty apply it
downward via `setNodes` and return a cleanup that applies it upward. -/
def avoidIntersections (tf : NodeData → EntityType → Bool) (id : String)
    (expandHeight : ℤ) (rootType : EntityType) (nodes : List LNode) : AvoidResult :=
  match findNode id nodes with
  | none => ⟨[], nodes, false, fun ns => ns⟩
  | some self =>
    let sorted := sortByY (candidateNodes tf rootType self nodes)
    let moves := (cascade (self.y + expandHeight) sorted).map (fun p => (p.1.id, p.2))
    if moves.isEmpty then
      ⟨moves, nodes, false, fun ns => ns⟩
    else
      ⟨moves, moveNodes moves true nodes, true, fun ns => moveNodes moves false ns⟩

/-! Concrete fixtures used by the scenario claim and by witnesses. -/

/-- Identifier of the reference node in the fixtures. -/
def idA : String := "A"

/-- Identifier of the first candidate in the fixtures. -/
def idB : String := "B"

/-- Identifier of the second candidate in the fixtures. -/
def idC : String := "C"

/-- Identifier of a third candidate used in early-stop fixtures. -/
def idD : String := "D"

/-- An identifier absent from every fixture collection. -/
def idMissing : String := "missing"

/-- A transformational predicate that classifies no node as
transformational. -/
def tfNever : NodeData → EntityType → Bool := fun _ _ => false

/-- An arbitrary root type for the fixtures. -/
def rtTest : EntityType := "dataset"

/-- An arbitrary opaque data payload for the fixtures. -/
def dataPlain : NodeData := ""

/-- The reference node of the spec's scenario: `self` at y = 100. -/
def nodeA : LNode := ⟨idA, 0, 100, none, none, dataPlain⟩

/-- Candidate B of the spec's scenario: y = 150, height 40, overlapping x. -/
def nodeB : LNode := ⟨idB, 0, 150, none, some 40, dataPlain⟩

/-- Candidate C of the spec's scenario: y = 210, overlapping x. -/
def nodeC : LNode := ⟨idC, 0, 210, none, none, dataPlain⟩

/-- Candidate D: y = 205, used to exhibit a later candidate that would have
a positive gap of its own. -/
def nodeD : LNode := ⟨idD, 0, 205, none, some 40, dataPlain⟩

/-- The node collection of the spec's scenario. -/
def nodesScenario : List LNode := [nodeA, nodeB, nodeC]

/-- A collection in which the cascade pushes two candidates (B and D). -/
def nodesTwoPush : List LNode := [nodeA, nodeB, nodeD]

/-- Identifier of a node placed far to the right of the fixtures. -/
def idF : String := "F"

/-- A node far to the right of `nodeA`, with no horizontal overlap. -/
def nodeFar : LNode := ⟨idF, 1000, 150, none, none, dataPlain⟩

/-- A collection in which no other node overlaps `nodeA` horizontally. -/
def nodesApart : List LNode := [nodeA, nodeFar]

/-- The separation shape of a cascade result: for any two entries in list
order, the later node's new top edge (`y` plus recorded distance) clears the
earlier node's new bottom edge by at least `MIN_SEPARATION`, and for
consecutive entries by exactly `MIN_SEPARATION`. -/
def separatedBy (cs : List (LNode × ℤ)) : Prop :=
  ∀ i j p q, i < j → cs[i]? = some p → cs[j]? = some q →
    p.1.y + p.2 + heightOr p.1.height + MIN_SEPARATION ≤ q.1.y + q.2 ∧
    (j = i + 1 → q.1.y + q.2 = p.1.y + p.2 + heightOr p.1.height + MIN_SEPARATION)

/-! Basic lemmas about the push distance and the cascade walk. -/

theorem pushDownDistance_nonneg (f y : ℤ) : 0 ≤ pushDownDistance f y :=
  le_max_left _ _

theorem pushDownDistance_eq_of_ne (f y : ℤ) (h : pushDownDistance f y ≠ 0) :
    pushDownDistance f y = f + MIN_SEPARATION - y := by
  unfold pushDownDistance at h ⊢
  rcases le_or_lt (f + MIN_SEPARATION - y) 0 with hle | hlt
  · exact absurd (max_eq_left hle) h
  · exact max_eq_right hlt.le

theorem pushDownDistance_eq_zero_iff (f y : ℤ) :
    pushDownDistance f y = 0 ↔ f + MIN_SEPARATION - y ≤ 0 := by
  unfold pushDownDistance
  constructor
  · intro h
    by_contra hc
    push_neg at hc
    rw [max_eq_right hc.le] at h
    exact absurd h (ne_of_gt hc)
  · intro h
    exact max_eq_left h

theorem cascade_cons (f : ℤ) (n : LNode) (rest : List LNode) :
    cascade f (n :: rest) =
      if pushDownDistance f n.y ≠ 0 then
        (n, pushDownDistance f n.y) ::
          cascade (n.y + pushDownDistance f n.y + heightOr n.height) rest
      else [] := rfl

theorem cascade_mem (f : ℤ) (l : List LNode) (p : LNode × ℤ)
    (hp : p ∈ cascade f l) : p.1 ∈ l := by
  induction l generalizing f with
  | nil => simp [cascade] at hp
  | cons n rest ih =>
    rw [cascade_cons] at hp
    split at hp
    · rcases List.mem_cons.mp hp with h | h
      · rw [h]
        exact List.mem_cons_self _ _
      · exact List.mem_cons_of_mem _ (ih _ h)
    · simp at hp

theorem cascade_snd_ne (f : ℤ) (l : List LNode) (p : LNode × ℤ)
    (hp : p ∈ cascade f l) : p.2 ≠ 0 := by
  induction l generalizing f with
  | nil => simp [cascade] at hp
  | cons n rest ih =>
    rw [cascade_cons] at hp
    split at hp
    · rcases List.mem_cons.mp hp with h | h
      · rw [h]
        assumption
      · exact ih _ h
    · simp at hp

theorem cascade_head (f : ℤ) (l : List LNode) (p : LNode × ℤ)
    (hp : (cascade f l)[0]? = some p) :
    p.1.y + p.2 = f + MIN_SEPARATION := by
  cases l with
  | nil => simp [cascade] at hp
  | cons n rest =>
    rw [cascade_cons] at hp
    by_cases hd : pushDownDistance f n.y ≠ 0
    · rw [if_pos hd, List.getElem?_cons_zero] at hp
      obtain rfl : (n, pushDownDistance f n.y) = p := by simpa using hp
      rw [pushDownDistance_eq_of_ne f n.y hd]
      ring
    · rw [if_neg hd] at hp
      simp at hp

theorem cascade_succ (f : ℤ) (l : List LNode) (i : ℕ) (p q : LNode × ℤ)
    (hp : (cascade f l)[i]? = some p) (hq : (cascade f l)[i + 1]? = some q) :
    q.1.y + q.2 = p.1.y + p.2 + heightOr p.1.height + MIN_SEPARATION := by
  induction l generalizing f i with
  | nil => simp [cascade] at hp
  | cons n rest ih =>
    rw [cascade_cons] at hp hq
    by_cases hd : pushDownDistance f n.y ≠ 0
    · rw [if_pos hd] at hp hq
      rw [List.getElem?_cons_succ] at hq
      cases i with
      | zero =>
        rw [List.getElem?_cons_zero] at hp
        obtain rfl : (n, pushDownDistance f n.y) = p := by simpa using hp
        have hhead := cascade_head _ rest q hq
        rw [hhead]
      | succ j =>
        rw [List.getElem?_cons_succ] at hp
        exact ih _ _ hp hq
    · rw [if_neg hd] at hp
      simp at hp

theorem cascade_separatedBy (f : ℤ) (l : List LNode)
    (hh : ∀ n ∈ l, 0 ≤ heightOr n.height) : separatedBy (cascade f l) := by
  have key : ∀ i p, (cascade f l)[i]? = some p →
      ∀ k q, (cascade f l)[i + k + 1]? = some q →
        p.1.y + p.2 + heightOr p.1.height + MIN_SEPARATION ≤ q.1.y + q.2 := by
    intro i p hp k
    induction k with
    | zero =>
      intro q hq
      rw [cascade_succ f l i p q hp hq]
    | succ m ih =>
      intro q hq
      have hlen : i + m + 2 < (cascade f l).length := by
        have := (List.getElem?_eq_some.mp hq).1
        omega
      have hmid : i + m + 1 < (cascade f l).length := by omega
      obtain ⟨r, hr⟩ : ∃ r, (cascade f l)[i + m + 1]? = some r :=
        ⟨_, List.getElem?_eq_getElem hmid⟩
      have hstep : q.1.y + q.2 = r.1.y + r.2 + heightOr r.1.height + MIN_SEPARATION := by
        have hq2 : (cascade f l)[(i + m + 1) + 1]? = some q := by
          rw [show i + m + 1 + 1 = i + (m + 1) + 1 by omega]
          exact hq
        exact cascade_succ f l (i + m + 1) r q hr hq2
      have hr_mem : r.1 ∈ l := cascade_mem f l r (List.getElem?_mem hr)
      have hconst : (0:ℤ) < MIN_SEPARATION := by decide
      have hrec := ih r hr
      have hht := hh r.1 hr_mem
      omega
  intro i j p q hij hp hq
  constructor
  · obtain ⟨k, rfl⟩ : ∃ k, j = i + k + 1 := ⟨j - i - 1, by omega⟩
    exact key i p hp k q hq
  · intro hji
    rw [hji] at hq
    exact cascade_succ f l i p q hp hq

/-! Lemmas about the sort, the candidate filter, lookup and node search. -/

theorem sortByY_perm (l : List LNode) : List.Perm (sortByY l) l :=
  List.perm_insertionSort byY l

theorem mem_sortByY (n : LNode) (l : List LNode) : n ∈ sortByY l ↔ n ∈ l :=
  (sortByY_perm l).mem_iff

theorem sortByY_pairwise (l : List LNode) : (sortByY l).Pairwise byY :=
  List.sorted_insertionSort byY l

theorem cascade_map_fst_sublist (f : ℤ) (l : List LNode) :
    List.Sublist ((cascade f l).map Prod.fst) l := by
  induction l generalizing f with
  | nil => simp [cascade]
  | cons n rest ih =>
    rw [cascade_cons]
    by_cases hd : pushDownDistance f n.y ≠ 0
    · rw [if_pos hd]
      simpa using List.Sublist.cons₂ n (ih _)
    · rw [if_neg hd]
      simp

theorem cascade_pairwise (f : ℤ) (l : List LNode) (hl : l.Pairwise byY) :
    (cascade f l).Pairwise (fun p q => p.1.y ≤ q.1.y) := by
  have hsub := cascade_map_fst_sublist f l
  have := hl.sublist hsub
  rwa [List.pairwise_map] at this

theorem candidateNodes_sublist (tf : NodeData → EntityType → Bool)
    (rootType : EntityType) (self : LNode) (nodes : List LNode) :
    List.Sublist (candidateNodes tf rootType self nodes) nodes :=
  (List.filter_sublist _).trans (List.filter_sublist _)

theorem mem_candidateNodes (tf : NodeData → EntityType → Bool)
    (rootType : EntityType) (self : LNode) (nodes : List LNode) (n : LNode) :
    n ∈ candidateNodes tf rootType self nodes ↔
      n ∈ nodes ∧ tf n.data rootType = false ∧ n.id ≠ self.id ∧
        self.y ≤ n.y ∧ overlapsX self n = true := by
  unfold candidateNodes
  simp only [List.mem_filter, Bool.and_eq_true, bne_iff_ne, ne_eq, decide_eq_true_eq,
    Bool.not_eq_true']
  tauto

theorem lookup_some_mem (ps : List (String × ℤ)) (k : String) (v : ℤ)
    (h : ps.lookup k = some v) : (k, v) ∈ ps := by
  induction ps with
  | nil => simp [List.lookup] at h
  | cons p t ih =>
    rw [List.lookup_cons] at h
    cases hk : (k == p.1) with
    | true =>
      rw [hk] at h
      cases h
      have hkp : k = p.1 := by simpa using hk
      rw [hkp]
      exact List.mem_cons_self _ _
    | false =>
      rw [hk] at h
      exact List.mem_cons_of_mem _ (ih h)

theorem lookup_of_mem_nodup (ps : List (String × ℤ)) (k : String) (v : ℤ)
    (hnd : (ps.map Prod.fst).Nodup) (hmem : (k, v) ∈ ps) :
    ps.lookup k = some v := by
  induction ps with
  | nil => simp at hmem
  | cons p t ih =>
    rw [List.map_cons, List.nodup_cons] at hnd
    rcases List.mem_cons.mp hmem with h | h
    · rw [← h, List.lookup_cons]
      have hkp : (k == k) = true := by simp
      simp
    · have hk : (k == p.1) = false := by
        have hne : k ≠ p.1 := by
          intro hkk
          exact hnd.1 (hkk ▸ List.mem_map_of_mem Prod.fst h)
        simpa using hne
      rw [List.lookup_cons, hk]
      exact ih hnd.2 h

theorem findNode_some (id : String) (nodes : List LNode) (self : LNode)
    (h : findNode id nodes = some self) : self.id = id ∧ self ∈ nodes := by
  unfold findNode at h
  refine ⟨?_, List.mem_of_find?_eq_some h⟩
  have := List.find?_some h
  simpa using this

theorem findNode_of_mem_nodup (nodes : List LNode) (n : LNode)
    (hnd : (nodes.map LNode.id).Nodup) (hmem : n ∈ nodes) :
    findNode n.id nodes = some n := by
  induction nodes with
  | nil => simp at hmem
  | cons m t ih =>
    rw [List.map_cons, List.nodup_cons] at hnd
    rcases List.mem_cons.mp hmem with h | h
    · rw [h]
      unfold findNode
      rw [List.find?_cons_of_pos _ (by simp)]
    · have hne : (m.id == n.id) = false := by
        have : m.id ≠ n.id := by
          intro he
          exact hnd.1 (he ▸ List.mem_map_of_mem LNode.id h)
        simpa using this
      unfold findNode at ih ⊢
      rw [List.find?_cons_of_neg _ (by simp [hne])]
      exact ih hnd.2 h

theorem moveNode_id (mv : List (String × ℤ)) (d : Bool) (n : LNode) :
    (moveNode mv d n).id = n.id := by
  unfold moveNode
  cases h : mv.lookup n.id with
  | none => rfl
  | some a =>
    dsimp only
    split <;> rfl

theorem findNode_moveNodes (k : String) (mv : List (String × ℤ)) (d : Bool)
    (nodes : List LNode) :
    findNode k (moveNodes mv d nodes) = (findNode k nodes).map (moveNode mv d) := by
  induction nodes with
  | nil => rfl
  | cons n t ih =>
    unfold findNode moveNodes at ih ⊢
    rw [List.map_cons]
    have hmid : ((moveNode mv d n).id == k) = (n.id == k) := by rw [moveNode_id]
    cases hb : (n.id == k) with
    | true =>
      rw [List.find?_cons, List.find?_cons, hmid, hb]
      rfl
    | false =>
      rw [List.find?_cons, List.find?_cons, hmid, hb]
      exact ih

/-! Unfolding lemmas for `avoidIntersections`. -/

theorem avoid_eq_of_none (tf : NodeData → EntityType → Bool) (id : String)
    (eh : ℤ) (rt : EntityType) (nodes : List LNode)
    (h : findNode id nodes = none) :
    avoidIntersections tf id eh rt nodes = ⟨[], nodes, false, fun ns => ns⟩ := by
  unfold avoidIntersections
  rw [h]

theorem avoid_moves_eq (tf : NodeData → EntityType → Bool) (id : String)
    (eh : ℤ) (rt : EntityType) (nodes : List LNode) (self : LNode)
    (h : findNode id nodes = some self) :
    (avoidIntersections tf id eh rt nodes).moves =
      (cascade (self.y + eh) (sortByY (candidateNodes tf rt self nodes))).map
        (fun p => (p.1.id, p.2)) := by
  unfold avoidIntersections
  rw [h]
  dsimp only
  split <;> rfl

theorem avoid_eq_of_empty (tf : NodeData → EntityType → Bool) (id : String)
    (eh : ℤ) (rt : EntityType) (nodes : List LNode) (self : LNode)
    (h : findNode id nodes = some self)
    (he : (cascade (self.y + eh) (sortByY (candidateNodes tf rt self nodes))).map
        (fun p => (p.1.id, p.2)) = []) :
    avoidIntersections tf id eh rt nodes =
      ⟨[], nodes, false, fun ns => ns⟩ := by
  unfold avoidIntersections
  rw [h]
  dsimp only
  rw [he]
  rfl

theorem avoid_eq_of_nonempty (tf : NodeData → EntityType → Bool) (id : String)
    (eh : ℤ) (rt : EntityType) (nodes : List LNode) (self : LNode)
    (h : findNode id nodes = some self)
    (hne : (cascade (self.y + eh) (sortByY (candidateNodes tf rt self nodes))).map
        (fun p => (p.1.id, p.2)) ≠ []) :
    avoidIntersections tf id eh rt nodes =
      ⟨(cascade (self.y + eh) (sortByY (candidateNodes tf rt self nodes))).map
          (fun p => (p.1.id, p.2)),
        moveNodes ((cascade (self.y + eh) (sortByY (candidateNodes tf rt self nodes))).map
          (fun p => (p.1.id, p.2))) true nodes,
        true,
        fun ns => moveNodes ((cascade (self.y + eh)
          (sortByY (candidateNodes tf rt self nodes))).map
          (fun p => (p.1.id, p.2))) false ns⟩ := by
  unfold avoidIntersections
  rw [h]
  dsimp only
  rw [if_neg (by simpa using hne)]

/-! Characterization of the per-node move update. -/

theorem moveNode_lookup_none (mv : List (String × ℤ)) (down : Bool) (n : LNode)
    (h : mv.lookup n.id = none) : moveNode mv down n = n := by
  unfold moveNode
  rw [h]

theorem moveNode_lookup_some (mv : List (String × ℤ)) (down : Bool) (n : LNode)
    (a : ℤ) (h : mv.lookup n.id = some a) :
    moveNode mv down n = { n with y := n.y + (if down then a else -a) } := by
  unfold moveNode
  rw [h]
  dsimp only
  by_cases ha : a = 0
  · rw [if_neg (by simpa using ha)]
    cases n
    subst ha
    cases down <;> simp
  · rw [if_pos ha]

theorem moveNode_roundtrip (mv : List (String × ℤ)) (n : LNode) :
    moveNode mv false (moveNode mv true n) = n := by
  cases h : mv.lookup n.id with
  | none =>
    rw [moveNode_lookup_none mv true n h, moveNode_lookup_none mv false n h]
  | some a =>
    rw [moveNode_lookup_some mv true n a h]
    have h2 : mv.lookup ({ n with y := n.y + (if true then a else -a) } : LNode).id = some a := h
    rw [moveNode_lookup_some mv false _ a h2]
    cases n
    simp

/-! Claim theorems. -/

/-- C2: for every node collection and every MoveSet, applying `moveNodes`
downward and then upward with the same MoveSet restores every affected
node's y-coordinate exactly; unaffected nodes keep their value throughout
(the whole collection is restored exactly). -/
theorem moveNodes_roundtrip (mv : List (String × ℤ)) (nodes : List LNode) :
    moveNodes mv false (moveNodes mv true nodes) = nodes := by
  induction nodes with
  | nil => rfl
  | cons n t ih =>
    show moveNode mv false (moveNode mv true n) :: moveNodes mv false (moveNodes mv true t) =
      n :: t
    rw [moveNode_roundtrip, ih]

/-- C8: `moveNodes` keeps the collection's length; a node whose identifier
is bound to `a` in the MoveSet is replaced by the same node with `y`
shifted by `+a` when `down` and `-a` otherwise (all other fields
unchanged), and a node whose identifier is not in the MoveSet is returned
unchanged.  The input collection itself is untouched (the transform is a
pure `map`). -/
theorem moveNodes_pointwise (mv : List (String × ℤ)) (down : Bool) (nodes : List LNode) :
    (moveNodes mv down nodes).length = nodes.length ∧
    ∀ (i : ℕ) (n : LNode), nodes[i]? = some n →
      (∀ a, mv.lookup n.id = some a →
        (moveNodes mv down nodes)[i]? =
          some { n with y := n.y + (if down then a else -a) }) ∧
      (mv.lookup n.id = none → (moveNodes mv down nodes)[i]? = some n) := by
  refine ⟨by simp [moveNodes], ?_⟩
  intro i n hn
  constructor
  · intro a ha
    rw [moveNodes, List.getElem?_map, hn, Option.map_some',
      moveNode_lookup_some mv down n a ha]
  · intro ha
    rw [moveNodes, List.getElem?_map, hn, Option.map_some',
      moveNode_lookup_none mv down n ha]

/-- Witness for C8: with MoveSet `{B ↦ 7}` moving down over the scenario
collection, the length is preserved and node B ends at `y = 157`. -/
theorem moveNodes_pointwise_witness :
    (moveNodes [(idB, 7)] true nodesScenario).length = nodesScenario.length ∧
    (moveNodes [(idB, 7)] true nodesScenario)[1]? =
      some { nodeB with y := nodeB.y + 7 } :=
  have h := moveNodes_pointwise [(idB, 7)] true nodesScenario
  ⟨h.1, (h.2 1 nodeB (by decide)).1 7 (by decide)⟩

/-- C3: the spec's scenario: `self` at y = 100 with `expandHeight = 50`
gives frontier 150; B (y = 150, height 40) is pushed by exactly 10 and the
frontier becomes 200; C (y = 210) has push distance 0, so the walk stops;
the MoveSet is exactly `{B ↦ 10}` and C's position is unchanged in the
resulting collection. -/
theorem avoid_scenario :
    nodeA.y + 50 = 150 ∧
    pushDownDistance 150 nodeB.y = 10 ∧
    nodeB.y + 10 + heightOr nodeB.height = 200 ∧
    pushDownDistance 200 nodeC.y = 0 ∧
    (avoidIntersections tfNever idA 50 rtTest nodesScenario).moves = [(idB, 10)] ∧
    (avoidIntersections tfNever idA 50 rtTest nodesScenario).nodes =
      [nodeA, { nodeB with y := 160 }, nodeC] := by
  decide

/-- C6: when the reference node is absent, `avoidIntersections` never calls
`setNodes` (the collection is unchanged) and the returned cleanup is the
identity on any collection. -/
theorem avoid_absent_noop (tf : NodeData → EntityType → Bool) (id : String)
    (eh : ℤ) (rt : EntityType) (nodes : List LNode)
    (h : findNode id nodes = none) :
    (avoidIntersections tf id eh rt nodes).setNodesCalled = false ∧
    (avoidIntersections tf id eh rt nodes).nodes = nodes ∧
    ∀ ns, (avoidIntersections tf id eh rt nodes).cleanup ns = ns := by
  rw [avoid_eq_of_none tf id eh rt nodes h]
  exact ⟨rfl, rfl, fun ns => rfl⟩

/-- Witness for C6: looking up the absent identifier over the scenario
collection is a complete no-op. -/
theorem avoid_absent_noop_witness :
    (avoidIntersections tfNever idMissing 50 rtTest nodesScenario).setNodesCalled = false ∧
    (avoidIntersections tfNever idMissing 50 rtTest nodesScenario).nodes = nodesScenario ∧
    (avoidIntersections tfNever idMissing 50 rtTest nodesScenario).cleanup nodesScenario =
      nodesScenario :=
  have h := avoid_absent_noop tfNever idMissing 50 rtTest nodesScenario (by decide)
  ⟨h.1, h.2.1, h.2.2 nodesScenario⟩

/-- C7: first, if no node other than `self` overlaps `self` horizontally,
the computed MoveSet is empty (for every `expandHeight`, which is the
universally quantified `eh`); second, whenever the computed MoveSet is
empty, `setNodes` is never called, the collection is unchanged, and the
cleanup is the identity. -/
theorem avoid_no_overlap_inert (tf : NodeData → EntityType → Bool) (id : String)
    (eh : ℤ) (rt : EntityType) (nodes : List LNode) :
    (∀ self, findNode id nodes = some self →
      (∀ n ∈ nodes, n.id ≠ self.id → overlapsX self n = false) →
      (avoidIntersections tf id eh rt nodes).moves = []) ∧
    ((avoidIntersections tf id eh rt nodes).moves = [] →
      (avoidIntersections tf id eh rt nodes).setNodesCalled = false ∧
      (avoidIntersections tf id eh rt nodes).nodes = nodes ∧
      ∀ ns, (avoidIntersections tf id eh rt nodes).cleanup ns = ns) := by
  constructor
  · intro self hfind hno
    have hcand : candidateNodes tf rt self nodes = [] := by
      rw [List.eq_nil_iff_forall_not_mem]
      intro n hn
      rw [mem_candidateNodes] at hn
      have hfalse := hno n hn.1 hn.2.2.1
      rw [hn.2.2.2.2] at hfalse
      simp at hfalse
    rw [avoid_moves_eq tf id eh rt nodes self hfind, hcand]
    rfl
  · intro hmv
    cases hfind : findNode id nodes with
    | none =>
      rw [avoid_eq_of_none tf id eh rt nodes hfind]
      exact ⟨rfl, rfl, fun ns => rfl⟩
    | some self =>
      have hempty :
          (cascade (self.y + eh) (sortByY (candidateNodes tf rt self nodes))).map
            (fun p => (p.1.id, p.2)) = [] := by
        rw [← avoid_moves_eq tf id eh rt nodes self hfind]
        exact hmv
      rw [avoid_eq_of_empty tf id eh rt nodes self hfind hempty]
      exact ⟨rfl, rfl, fun ns => rfl⟩

/-- Witness for C7: in a collection where the only other node sits far to
the right, the MoveSet is empty and nothing is mutated. -/
theorem avoid_no_overlap_inert_witness :
    (avoidIntersections tfNever idA 50 rtTest nodesApart).moves = [] ∧
    (avoidIntersections tfNever idA 50 rtTest nodesApart).setNodesCalled = false ∧
    (avoidIntersections tfNever idA 50 rtTest nodesApart).nodes = nodesApart ∧
    (avoidIntersections tfNever idA 50 rtTest nodesApart).cleanup nodesApart = nodesApart :=
  have h := avoid_no_overlap_inert tfNever idA 50 rtTest nodesApart
  have hm := h.1 nodeA (by decide) (by decide)
  have h2 := h.2 hm
  ⟨hm, h2.1, h2.2.1, h2.2.2 nodesApart⟩

/-- C4: membership in the candidate filter is exactly the conjunction of:
being in the snapshot, not being classified transformational for the root
type, not being `self` (by identifier), lying at or below `self`, and
overlapping `self` horizontally; and every identifier the MoveSet displaces
comes from such a candidate. -/
theorem candidate_set_exact (tf : NodeData → EntityType → Bool) (id : String)
    (eh : ℤ) (rt : EntityType) (nodes : List LNode) :
    (∀ self n, n ∈ candidateNodes tf rt self nodes ↔
      n ∈ nodes ∧ tf n.data rt = false ∧ n.id ≠ self.id ∧
        self.y ≤ n.y ∧ overlapsX self n = true) ∧
    (∀ k d, (k, d) ∈ (avoidIntersections tf id eh rt nodes).moves →
      ∃ self, findNode id nodes = some self ∧
        ∃ n, n ∈ candidateNodes tf rt self nodes ∧ n.id = k) := by
  constructor
  · intro self n
    exact mem_candidateNodes tf rt self nodes n
  · intro k d hkd
    cases hfind : findNode id nodes with
    | none =>
      rw [avoid_eq_of_none tf id eh rt nodes hfind] at hkd
      simp at hkd
    | some self =>
      rw [avoid_moves_eq tf id eh rt nodes self hfind] at hkd
      obtain ⟨p, hp, hpk⟩ := List.mem_map.mp hkd
      have hmem := cascade_mem _ _ p hp
      rw [mem_sortByY] at hmem
      refine ⟨self, rfl, p.1, hmem, ?_⟩
      simpa using congrArg Prod.fst hpk

/-- Witness for C4: the identifier B displaced in the scenario indeed comes
from a candidate of the filter. -/
theorem candidate_set_exact_witness :
    ∃ self, findNode idA nodesScenario = some self ∧
      ∃ n, n ∈ candidateNodes tfNever rtTest self nodesScenario ∧ n.id = idB :=
  (candidate_set_exact tfNever idA 50 rtTest nodesScenario).2 idB 10 (by decide)

theorem cascade_append (f : ℤ) (l1 l2 : List LNode)
    (hall : (cascade f l1).length = l1.length) :
    cascade f (l1 ++ l2) = cascade f l1 ++ cascade (frontierAfter f l1) l2 := by
  induction l1 generalizing f with
  | nil => simp [cascade, frontierAfter]
  | cons n rest ih =>
    by_cases hd : pushDownDistance f n.y ≠ 0
    · rw [List.cons_append, cascade_cons, if_pos hd, cascade_cons, if_pos hd,
        List.cons_append]
      have hall' :
          (cascade (n.y + pushDownDistance f n.y + heightOr n.height) rest).length =
            rest.length := by
        rw [cascade_cons, if_pos hd] at hall
        simpa using hall
      rw [ih _ hall']
      rfl
    · rw [cascade_cons, if_neg hd] at hall
      simp at hall

/-- C5: when the walk reaches a candidate whose push distance is zero (its
gap is not positive), the cascade stops there: the result is exactly the
moves of the fully pushed prefix, and neither that candidate nor any later
one appears in the MoveSet — whatever the later candidates look like. -/
theorem cascade_early_stop (f : ℤ) (l1 : List LNode) (n : LNode) (rest : List LNode)
    (hall : (cascade f l1).length = l1.length)
    (hstop : pushDownDistance (frontierAfter f l1) n.y = 0) :
    cascade f (l1 ++ n :: rest) = cascade f l1 ∧
    ∀ m ∈ n :: rest, m.id ∉ l1.map LNode.id →
      m.id ∉ (cascade f (l1 ++ n :: rest)).map (fun p => p.1.id) := by
  have h1 : cascade f (l1 ++ n :: rest) = cascade f l1 := by
    rw [cascade_append f l1 _ hall, cascade_cons, if_neg (by simpa using hstop),
      List.append_nil]
  refine ⟨h1, ?_⟩
  intro m _ hnotin hin
  rw [h1] at hin
  obtain ⟨p, hp, hpid⟩ := List.mem_map.mp hin
  exact hnotin (hpid ▸ List.mem_map_of_mem LNode.id (cascade_mem f l1 p hp))

/-- Witness for C5: with frontier 150, prefix `[B]` fully pushed, the
cascade over `[B, C, D]` stops at C (its distance at frontier 200 is 0),
and D — which would itself have a positive gap — is not displaced. -/
theorem cascade_early_stop_witness :
    cascade 150 ([nodeB] ++ nodeC :: [nodeD]) = cascade 150 [nodeB] ∧
    nodeD.id ∉ (cascade 150 ([nodeB] ++ nodeC :: [nodeD])).map (fun p => p.1.id) :=
  have h := cascade_early_stop 150 [nodeB] nodeC [nodeD] (by decide) (by decide)
  ⟨h.1, h.2 nodeD (by decide) (by decide)⟩

/-- C9: a dimension equal to 0 is treated like an absent one (JavaScript
falsiness): `widthOr`/`heightOr` substitute the defaults for both `some 0`
and `none`; `overlapsX` is therefore insensitive to replacing a zero width
by an absent one on either argument (and a zero-width node can still
register horizontal overlap, witnessed explicitly); and the cascade
advances the frontier identically past a node with height 0 and a node
with no height. -/
theorem zero_dimension_default :
    widthOr (some 0) = LINEAGE_NODE_WIDTH ∧ widthOr none = LINEAGE_NODE_WIDTH ∧
    heightOr (some 0) = LINEAGE_NODE_HEIGHT ∧ heightOr none = LINEAGE_NODE_HEIGHT ∧
    (∀ a b : LNode,
      overlapsX a { b with width := some 0 } = overlapsX a { b with width := none } ∧
      overlapsX { a with width := some 0 } b = overlapsX { a with width := none } b) ∧
    (∀ (f : ℤ) (n : LNode) (rest : List LNode),
      (cascade f ({ n with height := some 0 } :: rest)).map (fun p => (p.1.id, p.2)) =
        (cascade f ({ n with height := none } :: rest)).map (fun p => (p.1.id, p.2))) ∧
    (∃ a b : LNode, b.width = some 0 ∧ overlapsX a b = true) := by
  refine ⟨rfl, rfl, rfl, rfl, ?_, ?_, ?_⟩
  · intro a b
    constructor <;> simp [overlapsX, widthOr]
  · intro f n rest
    rw [cascade_cons, cascade_cons]
    dsimp only
    have hh : heightOr (some 0) = heightOr none := rfl
    by_cases hd : pushDownDistance f n.y ≠ 0
    · rw [if_pos hd, if_pos hd]
      rw [List.map_cons, List.map_cons]
      rw [hh]
    · rw [if_neg hd, if_neg hd]
  · exact ⟨nodeA, { nodeB with width := some 0 }, rfl, by decide⟩

theorem moveNode_iter_y (mv : List (String × ℤ)) (n : LNode) (a : ℤ)
    (h : mv.lookup n.id = some a) (k : ℕ) :
    (moveNode mv false)^[k] n = { n with y := n.y - (k : ℤ) * a } := by
  induction k with
  | zero =>
    cases n
    simp
  | succ m ih =>
    rw [Function.iterate_succ_apply', ih]
    have h2 : mv.lookup ({ n with y := n.y - (m : ℤ) * a } : LNode).id = some a := h
    rw [moveNode_lookup_some mv false _ a h2]
    cases n
    simp
    ring

theorem moveNodes_iterate (mv : List (String × ℤ)) (k : ℕ) (ns : List LNode) :
    (moveNodes mv false)^[k] ns = ns.map ((moveNode mv false)^[k]) := by
  induction k with
  | zero => simp
  | succ m ih =>
    rw [Function.iterate_succ_apply', ih]
    unfold moveNodes
    rw [List.map_map]
    congr 1
    exact (Function.iterate_succ' _ m).symm

theorem moveNodes_cleanup_iter (mv : List (String × ℤ)) (nodes : List LNode)
    (k i : ℕ) (n : LNode) (a : ℤ)
    (hn : nodes[i]? = some n) (hla : mv.lookup n.id = some a) :
    ((moveNodes mv false)^[k] (moveNodes mv true nodes))[i]? =
      some { n with y := n.y + a - (k : ℤ) * a } := by
  rw [moveNodes_iterate]
  unfold moveNodes
  rw [List.map_map, List.getElem?_map, hn, Option.map_some', Function.comp_apply]
  rw [moveNode_lookup_some mv true n a hla]
  have h2 : mv.lookup ({ n with y := n.y + (if true then a else -a) } : LNode).id = some a := hla
  rw [moveNode_iter_y mv _ a h2 k]
  cases n
  simp

/-- C10: when the computed MoveSet is non-empty, the returned cleanup is
not idempotent: each invocation subtracts every recorded amount again, so
after the forward application, `k ≥ 1` invocations of the cleanup leave an
affected node (identifier bound to `a` in the MoveSet) at its original `y`
minus `(k - 1) · a`. -/
theorem cleanup_not_idempotent (tf : NodeData → EntityType → Bool) (id : String)
    (eh : ℤ) (rt : EntityType) (nodes : List LNode) (k : ℕ) (_hk : 1 ≤ k)
    (i : ℕ) (n : LNode) (a : ℤ)
    (hn : nodes[i]? = some n)
    (hmv : (avoidIntersections tf id eh rt nodes).moves ≠ [])
    (hla : (avoidIntersections tf id eh rt nodes).moves.lookup n.id = some a) :
    ((avoidIntersections tf id eh rt nodes).cleanup^[k]
        (avoidIntersections tf id eh rt nodes).nodes)[i]? =
      some { n with y := n.y - ((k : ℤ) - 1) * a } := by
  cases hfind : findNode id nodes with
  | none =>
    rw [avoid_eq_of_none tf id eh rt nodes hfind] at hmv
    exact absurd rfl hmv
  | some self =>
    by_cases hemp :
        (cascade (self.y + eh) (sortByY (candidateNodes tf rt self nodes))).map
          (fun p => (p.1.id, p.2)) = []
    · rw [avoid_eq_of_empty tf id eh rt nodes self hfind hemp] at hmv
      exact absurd rfl hmv
    · rw [avoid_eq_of_nonempty tf id eh rt nodes self hfind hemp] at hla ⊢
      dsimp only at hla ⊢
      have hrec : ({ n with y := n.y + a - (k : ℤ) * a } : LNode) =
          { n with y := n.y - ((k : ℤ) - 1) * a } := by
        cases n
        simp
        ring
      rw [← hrec]
      exact moveNodes_cleanup_iter _ nodes k i n a hn hla

/-- Witness for C10: in the scenario, after the forward push of B by 10,
invoking the cleanup twice leaves B at 140 = 150 - (2 - 1) · 10, ten units
above its original position. -/
theorem cleanup_not_idempotent_witness :
    ((avoidIntersections tfNever idA 50 rtTest nodesScenario).cleanup^[2]
        (avoidIntersections tfNever idA 50 rtTest nodesScenario).nodes)[1]? =
      some { nodeB with y := 140 } := by
  have h := cleanup_not_idempotent tfNever idA 50 rtTest nodesScenario 2 (by decide)
    1 nodeB 10 (by decide) (by decide) (by decide)
  rw [h]
  decide

theorem cascade_keys_nodup (tf : NodeData → EntityType → Bool) (rt : EntityType)
    (self : LNode) (nodes : List LNode)
    (hnd : (nodes.map LNode.id).Nodup) (f : ℤ) :
    (((cascade f (sortByY (candidateNodes tf rt self nodes))).map
        (fun p => (p.1.id, p.2))).map Prod.fst).Nodup := by
  have h3 : List.Sublist ((candidateNodes tf rt self nodes).map LNode.id)
      (nodes.map LNode.id) :=
    (candidateNodes_sublist tf rt self nodes).map LNode.id
  have h4 : ((candidateNodes tf rt self nodes).map LNode.id).Nodup :=
    List.Nodup.sublist h3 hnd
  have hperm : List.Perm ((sortByY (candidateNodes tf rt self nodes)).map LNode.id)
      ((candidateNodes tf rt self nodes).map LNode.id) :=
    (sortByY_perm (candidateNodes tf rt self nodes)).map LNode.id
  have h5 : ((sortByY (candidateNodes tf rt self nodes)).map LNode.id).Nodup :=
    hperm.nodup_iff.mpr h4
  have h6 : List.Sublist
      (((cascade f (sortByY (candidateNodes tf rt self nodes))).map Prod.fst).map LNode.id)
      ((sortByY (candidateNodes tf rt self nodes)).map LNode.id) :=
    (cascade_map_fst_sublist f _).map LNode.id
  have h7 := List.Nodup.sublist h6 h5
  rw [List.map_map] at h7 ⊢
  exact h7

theorem avoid_applied_pos (tf : NodeData → EntityType → Bool) (id : String)
    (eh : ℤ) (rt : EntityType) (nodes : List LNode) (self : LNode)
    (hfind : findNode id nodes = some self)
    (hnd : (nodes.map LNode.id).Nodup)
    (p : LNode × ℤ)
    (hp : p ∈ cascade (self.y + eh) (sortByY (candidateNodes tf rt self nodes))) :
    findNode p.1.id (avoidIntersections tf id eh rt nodes).nodes =
      some { p.1 with y := p.1.y + p.2 } := by
  have hne : (cascade (self.y + eh) (sortByY (candidateNodes tf rt self nodes))).map
      (fun p => (p.1.id, p.2)) ≠ [] := by
    intro hcon
    rw [List.map_eq_nil_iff] at hcon
    rw [hcon] at hp
    simp at hp
  rw [avoid_eq_of_nonempty tf id eh rt nodes self hfind hne]
  dsimp only
  rw [findNode_moveNodes]
  have hmemN : p.1 ∈ nodes :=
    (candidateNodes_sublist tf rt self nodes).subset
      ((mem_sortByY _ _).mp (cascade_mem _ _ p hp))
  rw [findNode_of_mem_nodup nodes p.1 hnd hmemN, Option.map_some']
  have hlook : ((cascade (self.y + eh) (sortByY (candidateNodes tf rt self nodes))).map
      (fun p => (p.1.id, p.2))).lookup p.1.id = some p.2 := by
    apply lookup_of_mem_nodup _ _ _ (cascade_keys_nodup tf rt self nodes hnd _)
    exact List.mem_map_of_mem _ hp
  rw [moveNode_lookup_some _ true p.1 p.2 hlook]
  rfl

/-- C1: assuming every candidate's height (actual or default) is
non-negative, the MoveSet computed by `avoidIntersections` — the cascade
over the y-sorted candidates — lists the affected nodes in ascending
original-y order, and after applying it every affected node sits at its
original y plus its displacement; for any two affected nodes in that order
the later node's new top edge clears the earlier node's new bottom edge
(new y plus height, defaulting to `LINEAGE_NODE_HEIGHT`) by at least
`MIN_SEPARATION` = 10, and for consecutive affected nodes by exactly
`MIN_SEPARATION`. -/
theorem avoid_separation (tf : NodeData → EntityType → Bool) (id : String)
    (eh : ℤ) (rt : EntityType) (nodes : List LNode) (self : LNode)
    (hfind : findNode id nodes = some self)
    (hh : ∀ n ∈ candidateNodes tf rt self nodes, 0 ≤ heightOr n.height)
    (hnd : (nodes.map LNode.id).Nodup) :
    MIN_SEPARATION = 10 ∧
    List.Pairwise (fun p q => p.1.y ≤ q.1.y)
      (cascade (self.y + eh) (sortByY (candidateNodes tf rt self nodes))) ∧
    separatedBy (cascade (self.y + eh) (sortByY (candidateNodes tf rt self nodes))) ∧
    (avoidIntersections tf id eh rt nodes).moves =
      (cascade (self.y + eh) (sortByY (candidateNodes tf rt self nodes))).map
        (fun p => (p.1.id, p.2)) ∧
    ∀ p ∈ cascade (self.y + eh) (sortByY (candidateNodes tf rt self nodes)),
      findNode p.1.id (avoidIntersections tf id eh rt nodes).nodes =
        some { p.1 with y := p.1.y + p.2 } := by
  refine ⟨rfl, ?_, ?_, avoid_moves_eq tf id eh rt nodes self hfind, ?_⟩
  · exact cascade_pairwise _ _ (sortByY_pairwise _)
  · apply cascade_separatedBy
    intro n hn
    exact hh n ((mem_sortByY n _).mp hn)
  · intro p hp
    exact avoid_applied_pos tf id eh rt nodes self hfind hnd p hp

/-- Witness for C1: in the two-push collection, B and D are both displaced;
D's new top edge 210 equals B's new bottom edge 200 plus the minimum
separation, and B indeed sits at 160 in the resulting collection. -/
theorem avoid_separation_witness :
    nodeB.y + 10 + heightOr nodeB.height + MIN_SEPARATION ≤ nodeD.y + 5 ∧
    nodeD.y + 5 = nodeB.y + 10 + heightOr nodeB.height + MIN_SEPARATION ∧
    findNode nodeB.id (avoidIntersections tfNever idA 50 rtTest nodesTwoPush).nodes =
      some { nodeB with y := nodeB.y + 10 } := by
  have h := avoid_separation tfNever idA 50 rtTest nodesTwoPush nodeA (by decide)
    (by decide) (by decide)
  have hsep := h.2.2.1 0 1 (nodeB, 10) (nodeD, 5) (by decide) (by decide) (by decide)
  exact ⟨hsep.1, hsep.2 rfl, h.2.2.2.2 (nodeB, 10) (by decide)⟩
